import Mathlib

/-!
Verification of the `odbc2parquet.py` export pipeline.

The development shallowly embeds the two algorithmic parts of the script:

* the schema-derivation loop (lines 188–224 of the source), which walks the
  cursor description and maps each column's Python type code / precision /
  scale / nullable flag to a PyArrow field;
* the streaming main loop (lines 228–299), which repeatedly fetches batches
  of up to `rowgroupSize` rows, writes each batch as one Parquet rowgroup,
  and rotates the output file once the current file exceeds
  `blockSize` megabytes.

Byte sizes of individual rowgroup writes depend on the external Parquet
encoder, so the pipeline model is parameterised by an arbitrary size
function `wsize : List α → Nat` standing for the bytes a rowgroup write
adds to the open file (what `writer.file_handle.tell()` reflects).
-/

namespace Odbc2Parquet

/-- The Python type object reported in `cur.description[i][1]`: the branches
tested by the schema-derivation `if/elif` chain, plus `pyOther` for any type
object the chain does not test (the chain has no `else` branch). -/
inductive PyType
  | pyInt
  | pyDecimal
  | pyFloat
  | pyStr
  | pyBytearray
  | pyDate
  | pyTime
  | pyDatetime
  | pyBool
  | pyOther
  deriving DecidableEq, Repr

/-- One entry of `cur.description`: `c[0]` name, `c[1]` type code, `c[4]`
precision, `c[5]` scale, `c[6]` nullable. -/
structure ColDesc where
  name : String
  typeCode : PyType
  precision : Int
  scale : Int
  nullable : Bool
  deriving DecidableEq, Repr

/-- The PyArrow data types the script constructs. -/
inductive ArrowType
  | int8
  | int16
  | int32
  | int64
  | decimal128 (precision scale : Int)
  | float32
  | float64
  | string
  | binary
  | date32
  | time32ms
  | timestampMs
  | boolType
  deriving DecidableEq, Repr

/-- The value passed as the `nullable=` keyword of `pa.field`.  The float
branches of the source pass `[c[6]]` (a one-element list) where every other
branch passes `c[6]` itself; the distinction is kept here. -/
inductive NullableArg
  | plain (b : Bool)
  | listWrapped (b : Bool)
  deriving DecidableEq, Repr

/-- A PyArrow field as constructed by `pa.field (name, type, nullable=...)`. -/
structure ArrowField where
  name : String
  dtype : ArrowType
  nullable : NullableArg
  deriving DecidableEq, Repr

/-- The body of the schema-derivation loop for one column `c`
(source lines 195–222): the `if/elif` chain on `ct = c[1]` with the nested
precision tests.  `none` means no branch matched, in which case the source
appends nothing (there is no `else` branch and no exception is raised). -/
def mapColumn (c : ColDesc) : Option ArrowField :=
  if c.typeCode = PyType.pyInt then
    if c.precision = 3 then
      some ⟨c.name, ArrowType.int8, NullableArg.plain c.nullable⟩
    else if c.precision = 5 then
      some ⟨c.name, ArrowType.int16, NullableArg.plain c.nullable⟩
    else if c.precision = 10 then
      some ⟨c.name, ArrowType.int32, NullableArg.plain c.nullable⟩
    else
      some ⟨c.name, ArrowType.int64, NullableArg.plain c.nullable⟩
  else if c.typeCode = PyType.pyDecimal then
    some ⟨c.name, ArrowType.decimal128 c.precision c.scale, NullableArg.plain c.nullable⟩
  else if c.typeCode = PyType.pyFloat then
    if c.precision = 53 then
      some ⟨c.name, ArrowType.float32, NullableArg.listWrapped c.nullable⟩
    else
      some ⟨c.name, ArrowType.float64, NullableArg.listWrapped c.nullable⟩
  else if c.typeCode = PyType.pyStr then
    some ⟨c.name, ArrowType.string, NullableArg.plain c.nullable⟩
  else if c.typeCode = PyType.pyBytearray then
    some ⟨c.name, ArrowType.binary, NullableArg.plain c.nullable⟩
  else if c.typeCode = PyType.pyDate then
    some ⟨c.name, ArrowType.date32, NullableArg.plain c.nullable⟩
  else if c.typeCode = PyType.pyTime then
    some ⟨c.name, ArrowType.time32ms, NullableArg.plain c.nullable⟩
  else if c.typeCode = PyType.pyDatetime then
    some ⟨c.name, ArrowType.timestampMs, NullableArg.plain c.nullable⟩
  else if c.typeCode = PyType.pyBool then
    some ⟨c.name, ArrowType.boolType, NullableArg.plain c.nullable⟩
  else
    none

/-- The schema-derivation loop (source lines 188–224): start from an empty
`fields` list and append the mapped field of each column, skipping columns
for which no branch matches. -/
def deriveFields (desc : List ColDesc) : List ArrowField :=
  desc.foldl
    (fun fields c =>
      match mapColumn c with
      | some f => fields ++ [f]
      | none => fields)
    []

/-! ## Output converters at the cursor boundary (source lines 97–100, 173–178) -/

/-- A value as delivered by the ODBC driver: either an ordinary Python
string, or a raw driver value of a type pyodbc cannot decode natively,
carrying its SQL type tag and the text rendering Python's `str` gives it. -/
inductive PyValue
  | vStr (s : String)
  | vDriverRaw (typeTag : Int) (rendering : String)
  deriving DecidableEq, Repr

/-- Python's `str(value)` on the values that can reach
`handle_unknown_data_type`. -/
def pyStrOf : PyValue → String
  | PyValue.vStr s => s
  | PyValue.vDriverRaw _ r => r

/-- Source lines 99–100: `def handle_unknown_data_type (value): return str(value)`. -/
def handle_unknown_data_type (value : PyValue) : PyValue :=
  PyValue.vStr (pyStrOf value)

/-- The converter registrations of source lines 177–178:
`con.add_output_converter(-151, handle_unknown_data_type)` (Geography) and
`con.add_output_converter(-155, handle_unknown_data_type)` (DateTimeInterval). -/
def outputConverters : List (Int × (PyValue → PyValue)) :=
  [(-151, handle_unknown_data_type), (-155, handle_unknown_data_type)]

/-- What pyodbc does with a registered output converter: a fetched value of
SQL type `typeTag` is passed through the registered converter before it is
handed to the application; unregistered types pass through unchanged. -/
def convertOutput (typeTag : Int) (v : PyValue) : PyValue :=
  match outputConverters.lookup typeTag with
  | some f => f v
  | none => v

/-- Whether a value is an (opaque) Python text value. -/
def isOpaqueText : PyValue → Bool
  | PyValue.vStr _ => true
  | PyValue.vDriverRaw _ _ => false

/-! ## The streaming main loop (source lines 136–148, 228–299) -/

/-- The configuration the main loop reads: `rowgroupSize` (`-r`, batch
capacity), `blockSize` (`-b`, megabytes, 0 disables rotation), and the
output file root. -/
structure Config where
  rowgroupSize : Nat
  blockSize : Nat
  outputFileRoot : String
  deriving Repr

/-- Python's `f'{n:05d}'`: decimal rendering left-padded with zeros to at
least five characters. -/
def pad5 (n : Nat) : String :=
  let s := toString n
  String.mk (List.replicate (5 - s.length) '0') ++ s

/-- The name of rotation segment `n`: `f'{outputFileRoot}_{n:05d}.parquet'`
(source lines 145 and 291). -/
def segFileName (root : String) (n : Nat) : String :=
  root ++ "_" ++ pad5 n ++ ".parquet"

/-- One output file: its name, the sequence number used to build the name
(1 for the suffix-less single file when rotation is off), the count of
rowgroups written into it, and the bytes its writes added. -/
structure Segment where
  name : String
  seq : Nat
  rowgroups : Nat
  bytes : Nat
  deriving DecidableEq, Repr

/-- The mutable state of the main loop: `rowcount`, `fileNumber`, the
current `outputFileName` (with the sequence number it was built from),
the lazily created `writer` (the open segment), the files already closed
by rotation, and whether a writer was ever instantiated. -/
structure LoopState where
  rowcount : Nat
  fileNumber : Nat
  outputFileName : String
  currentSeq : Nat
  writer : Option Segment
  closed : List Segment
  writerCreated : Bool
  deriving Repr

/-- The state before the loop: lines 136–148 compute the initial
`outputFileName` (suffix `_00001` and `fileNumber = 2` when `blockSize > 0`,
plain `root + '.parquet'` otherwise); lines 228–233 zero the counters and
leave `writer = None`. -/
def initState (cfg : Config) : LoopState :=
  if cfg.blockSize > 0 then
    { rowcount := 0
      fileNumber := 2
      outputFileName := segFileName cfg.outputFileRoot 1
      currentSeq := 1
      writer := none
      closed := []
      writerCreated := false }
  else
    { rowcount := 0
      fileNumber := 1
      outputFileName := cfg.outputFileRoot ++ ".parquet"
      currentSeq := 1
      writer := none
      closed := []
      writerCreated := false }

/-- The writer the body uses: the already-open one, or — `if writer is
None` (line 280) — a fresh one on the current output file name. -/
def openWriter (st : LoopState) : Segment :=
  match st.writer with
  | none => { name := st.outputFileName, seq := st.currentSeq, rowgroups := 0, bytes := 0 }
  | some w => w

/-- One iteration of the loop body on a non-empty batch `b` (source lines
259–293): count the rows, lazily create the writer (line 280–281), append
the batch as one rowgroup (line 283, adding `wsize b` bytes to the open
file), then the rotation check (lines 287–293): when `blockSize > 0` and
the open file's size in megabytes exceeds `blockSize` — i.e. its bytes
exceed `blockSize * 1024 * 1024` — close it, move to the next file name,
and open a fresh writer there. -/
def processBatch {α : Type} (cfg : Config) (wsize : List α → Nat)
    (st : LoopState) (b : List α) : LoopState :=
  let rowcount := st.rowcount + b.length
  let w0 : Segment := openWriter st
  let w1 : Segment := { w0 with rowgroups := w0.rowgroups + 1, bytes := w0.bytes + wsize b }
  if cfg.blockSize > 0 ∧ cfg.blockSize * (1024 * 1024) < w1.bytes then
    { rowcount := rowcount
      fileNumber := st.fileNumber + 1
      outputFileName := segFileName cfg.outputFileRoot st.fileNumber
      currentSeq := st.fileNumber
      writer := some { name := segFileName cfg.outputFileRoot st.fileNumber
                       seq := st.fileNumber, rowgroups := 0, bytes := 0 }
      closed := st.closed ++ [w1]
      writerCreated := true }
  else
    { rowcount := rowcount
      fileNumber := st.fileNumber
      outputFileName := st.outputFileName
      currentSeq := st.currentSeq
      writer := some w1
      closed := st.closed
      writerCreated := true }

/-- The `while True` loop (source lines 234–296): fetch up to
`cfg.rowgroupSize` rows; `if not res: break`; otherwise run the body and
continue on the remaining rows. -/
def mainLoop {α : Type} (cfg : Config) (wsize : List α → Nat)
    (rows : List α) (st : LoopState) : LoopState :=
  match h : rows.take cfg.rowgroupSize with
  | [] => st
  | b :: bs =>
    mainLoop cfg wsize (rows.drop cfg.rowgroupSize)
      (processBatch cfg wsize st (b :: bs))
termination_by rows.length
decreasing_by
  simp only [List.length_drop]
  have hr : rows ≠ [] := by
    intro hnil
    simp [hnil] at h
  have hcap : cfg.rowgroupSize ≠ 0 := by
    intro hz
    simp [hz] at h
  have h1 : 0 < rows.length := List.length_pos.mpr hr
  omega

/-- The observable outcome of an export: the final row count, every closed
output file in the order it was closed, whether a writer was ever created,
and the file name the final report names (line 306). -/
structure Result where
  rowcount : Nat
  segments : List Segment
  writerCreated : Bool
  finalName : String
  deriving Repr

/-- After the loop, `if writer: writer.close()` (lines 298–299), then the
final report prints `rowcount` and `outputFileName` (line 306). -/
def finalize (st : LoopState) : Result :=
  { rowcount := st.rowcount
    segments :=
      match st.writer with
      | none => st.closed
      | some w => st.closed ++ [w]
    writerCreated := st.writerCreated
    finalName := st.outputFileName }

/-- The whole section of the script from output-name computation through
the final report, for an export whose cursor yields `rows` and whose
rowgroup writes add `wsize b` bytes each. -/
def runPipeline {α : Type} (cfg : Config) (wsize : List α → Nat)
    (rows : List α) : Result :=
  finalize (mainLoop cfg wsize rows (initState cfg))

/-- The batches the repeated `cur.fetchmany(rowgroupSize)` calls of the loop
yield, in order, up to (and not including) the empty fetch that breaks the
loop. -/
def fetchBatches {α : Type} (cap : Nat) (rows : List α) : List (List α) :=
  match h : rows.take cap with
  | [] => []
  | b :: bs => (b :: bs) :: fetchBatches cap (rows.drop cap)
termination_by rows.length
decreasing_by
  simp only [List.length_drop]
  have hr : rows ≠ [] := by
    intro hnil
    simp [hnil] at h
  have hcap : cap ≠ 0 := by
    intro hz
    simp [hz] at h
  have h1 : 0 < rows.length := List.length_pos.mpr hr
  omega

/-! ## Auxiliary definitions and concrete inputs -/

/-- A concrete integer column (precision 5) run through the C1 theorem. -/
def intCol16 : ColDesc :=
  { name := "n", typeCode := PyType.pyInt, precision := 5, scale := 0, nullable := true }

/-- A concrete float column (precision 53) run through the C2 theorem. -/
def floatCol53 : ColDesc :=
  { name := "x", typeCode := PyType.pyFloat, precision := 53, scale := 0, nullable := true }

/-- A non-nullable float column: the input on which the nullable flag is not
copied verbatim. -/
def floatColNotNull : ColDesc :=
  { name := "f", typeCode := PyType.pyFloat, precision := 53, scale := 0, nullable := false }

/-- A column whose type object matches no branch of the chain (e.g. the
driver's type for a geography column when no converter rewrites it). -/
def unmappedCol : ColDesc :=
  { name := "geo", typeCode := PyType.pyOther, precision := 0, scale := 0, nullable := true }

/-- A two-column description (one mapped boolean column, preceded by a
mapped string column) run through the amended C4 theorem. -/
def twoColDesc : List ColDesc :=
  [{ name := "s", typeCode := PyType.pyStr, precision := 0, scale := 0, nullable := true },
   { name := "b", typeCode := PyType.pyBool, precision := 1, scale := 0, nullable := false }]

/-- The rowgroups so far: those in already-closed files plus those in the
open writer. -/
def totalRowgroupsState (st : LoopState) : Nat :=
  (st.closed.map Segment.rowgroups).sum +
    (match st.writer with
     | none => 0
     | some w => w.rowgroups)

/-- A concrete five-row source with capacity 2 for the C5 theorem. -/
def cfgC5 : Config := { rowgroupSize := 2, blockSize := 0, outputFileRoot := "t" }

def rowsC5 : List Nat := [1, 2, 3, 4, 5]

def wsizeC5 : List Nat → Nat := fun b => 100 * b.length

/-- The bookkeeping invariant the loop maintains while rotation is active:
closed files carry sequence numbers 1..k in closing order with names built
by `segFileName`, every rotation-closed file exceeded the block-size
threshold, and the next file name, its sequence number, and `fileNumber`
are consistent with the files closed so far. -/
def SeqInv (cfg : Config) (st : LoopState) : Prop :=
  st.closed.map Segment.seq = List.range' 1 st.closed.length ∧
  (∀ s ∈ st.closed, s.name = segFileName cfg.outputFileRoot s.seq) ∧
  (∀ s ∈ st.closed, cfg.blockSize * (1024 * 1024) < s.bytes) ∧
  st.currentSeq = st.closed.length + 1 ∧
  st.outputFileName = segFileName cfg.outputFileRoot st.currentSeq ∧
  st.fileNumber = st.closed.length + 2 ∧
  (∀ w, st.writer = some w → w.seq = st.currentSeq ∧ w.name = st.outputFileName)

/-- The invariant the loop maintains when `blockSize = 0`: nothing is ever
closed by rotation and the single output name never changes. -/
def NoRotInv (cfg : Config) (st : LoopState) : Prop :=
  st.closed = [] ∧
  st.outputFileName = cfg.outputFileRoot ++ ".parquet" ∧
  (∀ w, st.writer = some w → w.name = cfg.outputFileRoot ++ ".parquet")

/-- A two-row export with a 1 MB block size whose every rowgroup write adds
2000000 bytes, forcing a rotation after each write (C6 witness). -/
def cfgC6 : Config := { rowgroupSize := 1, blockSize := 1, outputFileRoot := "t" }

def rowsC6 : List Nat := [10, 20]

def wsizeC6 : List Nat → Nat := fun _ => 2000000

/-- A three-row export with rotation disabled (C7 witness). -/
def cfgC7 : Config := { rowgroupSize := 2, blockSize := 0, outputFileRoot := "out" }

def rowsC7 : List Nat := [1, 2, 3]

def wsizeC7 : List Nat → Nat := fun b => b.length

/-- A one-row export with a 1 MB block size whose single rowgroup write adds
2000000 bytes: the write triggers rotation, a fresh writer is opened
eagerly, the next fetch is empty, and the fresh file is closed containing
zero rowgroups (C8 counterexample). -/
def cfgC8 : Config := { rowgroupSize := 1, blockSize := 1, outputFileRoot := "t" }

def rowsC8 : List Nat := [7]

def wsizeC8 : List Nat → Nat := fun _ => 2000000

/-- A two-row rotating export used to instantiate the amended C8 theorem. -/
def cfgC8w : Config := { rowgroupSize := 1, blockSize := 1, outputFileRoot := "u" }

def rowsC8w : List Nat := [10, 20]

def wsizeC8w : List Nat → Nat := fun _ => 2000000

/-- The first file the C8-witness export closes. -/
def segC8w : Segment :=
  { name := segFileName "u" 1, seq := 1, rowgroups := 1, bytes := 2000000 }

/-! ## Helper lemmas -/

/-- Unfolding `fetchBatches` when the fetch comes back empty. -/
theorem fetchBatches_stop {α : Type} (cap : Nat) (rows : List α)
    (h : rows.take cap = []) : fetchBatches cap rows = [] := by
  rw [fetchBatches]
  split
  · rfl
  · rename_i b bs heq
    rw [h] at heq
    exact absurd heq (by simp)

/-- Unfolding `fetchBatches` when the fetch comes back non-empty. -/
theorem fetchBatches_step {α : Type} (cap : Nat) (rows : List α)
    (h : rows.take cap ≠ []) :
    fetchBatches cap rows = rows.take cap :: fetchBatches cap (rows.drop cap) := by
  rw [fetchBatches]
  split
  · rename_i heq
    exact absurd heq h
  · rename_i b bs heq
    rw [heq]

/-- Unfolding `mainLoop` at the terminating empty fetch. -/
theorem mainLoop_stop {α : Type} (cfg : Config) (wsize : List α → Nat)
    (rows : List α) (st : LoopState) (h : rows.take cfg.rowgroupSize = []) :
    mainLoop cfg wsize rows st = st := by
  rw [mainLoop]
  split
  · rfl
  · rename_i b bs heq
    rw [h] at heq
    exact absurd heq (by simp)

/-- Unfolding `mainLoop` at a non-empty fetch. -/
theorem mainLoop_step {α : Type} (cfg : Config) (wsize : List α → Nat)
    (rows : List α) (st : LoopState) (h : rows.take cfg.rowgroupSize ≠ []) :
    mainLoop cfg wsize rows st =
      mainLoop cfg wsize (rows.drop cfg.rowgroupSize)
        (processBatch cfg wsize st (rows.take cfg.rowgroupSize)) := by
  rw [mainLoop]
  split
  · rename_i heq
    exact absurd heq h
  · rename_i b bs heq
    rw [heq]

/-- The schema-derivation fold, started from any accumulator, appends the
mapped fields of the matched columns in order. -/
theorem deriveFields_loop_eq (desc : List ColDesc) :
    ∀ acc : List ArrowField,
      desc.foldl
        (fun fields c =>
          match mapColumn c with
          | some f => fields ++ [f]
          | none => fields)
        acc
      = acc ++ desc.filterMap mapColumn := by
  induction desc with
  | nil => intro acc; simp
  | cons c cs ih =>
    intro acc
    simp only [List.foldl_cons, List.filterMap_cons]
    cases hc : mapColumn c with
    | none => simp [ih]
    | some f => simp [ih]

/-- `filterMap` keeps the length when the function succeeds everywhere. -/
theorem length_filterMap_of_isSome {β γ : Type} (g : β → Option γ) :
    ∀ l : List β, (∀ x ∈ l, (g x).isSome) → (l.filterMap g).length = l.length := by
  intro l
  induction l with
  | nil => intro _; rfl
  | cons x xs ih =>
    intro hall
    have hx : (g x).isSome := hall x (by simp)
    obtain ⟨y, hy⟩ := Option.isSome_iff_exists.mp hx
    simp only [List.filterMap_cons, hy, List.length_cons]
    rw [ih (fun z hz => hall z (by simp [hz]))]

/-! ## Claims about schema derivation -/

/-- C1: for an integer source column the derived target type is exactly the
width of the mapping table — precision 3 → 8-bit, 5 → 16-bit, 10 → 32-bit,
anything else → 64-bit — and nothing wider or narrower. -/
theorem integer_precision_maps_to_exact_width (c : ColDesc)
    (h : c.typeCode = PyType.pyInt) :
    mapColumn c = some
      { name := c.name
        dtype :=
          if c.precision = 3 then ArrowType.int8
          else if c.precision = 5 then ArrowType.int16
          else if c.precision = 10 then ArrowType.int32
          else ArrowType.int64
        nullable := NullableArg.plain c.nullable } := by
  unfold mapColumn
  rw [if_pos h]
  split_ifs <;> rfl

theorem integer_precision_maps_to_exact_width_witness :
    intCol16.typeCode = PyType.pyInt ∧
    mapColumn intCol16 = some
      { name := intCol16.name
        dtype :=
          if intCol16.precision = 3 then ArrowType.int8
          else if intCol16.precision = 5 then ArrowType.int16
          else if intCol16.precision = 10 then ArrowType.int32
          else ArrowType.int64
        nullable := NullableArg.plain intCol16.nullable } :=
  ⟨rfl, integer_precision_maps_to_exact_width intCol16 rfl⟩

/-- C2: for a floating-point source column the derived target type is
single-precision float exactly when precision = 53 and double-precision
float otherwise. -/
theorem float_precision_53_maps_to_float32 (c : ColDesc)
    (h : c.typeCode = PyType.pyFloat) :
    mapColumn c = some
      { name := c.name
        dtype := if c.precision = 53 then ArrowType.float32 else ArrowType.float64
        nullable := NullableArg.listWrapped c.nullable } := by
  unfold mapColumn
  have hne1 : ¬ c.typeCode = PyType.pyInt := by rw [h]; intro hc; cases hc
  have hne2 : ¬ c.typeCode = PyType.pyDecimal := by rw [h]; intro hc; cases hc
  rw [if_neg hne1, if_neg hne2, if_pos h]
  split_ifs <;> rfl

theorem float_precision_53_maps_to_float32_witness :
    floatCol53.typeCode = PyType.pyFloat ∧
    mapColumn floatCol53 = some
      { name := floatCol53.name
        dtype := if floatCol53.precision = 53 then ArrowType.float32 else ArrowType.float64
        nullable := NullableArg.listWrapped floatCol53.nullable } :=
  ⟨rfl, float_precision_53_maps_to_float32 floatCol53 rfl⟩

/-- C3: evaluating the code at the failing input — for a float column the
source passes `nullable=[c[6]]` (a one-element list) to `pa.field`, so the
target field's nullable argument is the list-wrapped flag, not the source
flag itself: changed in type (and, since a non-empty list is truthy, in
effective value for a non-nullable column). -/
theorem float_column_nullable_not_copied_verbatim :
    (deriveFields [floatColNotNull]).map ArrowField.nullable
      = [NullableArg.listWrapped false] ∧
    NullableArg.listWrapped false ≠ NullableArg.plain false := by
  exact ⟨rfl, by decide⟩

/-- C4 counterexample: a source column matching no mapping rule does not
make schema derivation fail — the loop has no `else` branch, so derivation
succeeds and simply omits the column, yielding a schema with zero fields
for one source column (not one field per source column). -/
theorem unmapped_column_silently_skipped :
    deriveFields [unmappedCol] = [] ∧
    (deriveFields [unmappedCol]).length ≠ ([unmappedCol] : List ColDesc).length := by
  exact ⟨rfl, by decide⟩

/-- C4 (amended): schema derivation never fails; a column whose metadata
matches no mapping rule is silently omitted, so the derived schema holds
exactly the mapped fields of the matched columns in source order, and it has
exactly one field per source column precisely when every column matches some
rule. -/
theorem derivation_total_one_field_per_matched_column (desc : List ColDesc) :
    deriveFields desc = desc.filterMap mapColumn ∧
    ((∀ c ∈ desc, (mapColumn c).isSome) → (deriveFields desc).length = desc.length) := by
  have heq : deriveFields desc = desc.filterMap mapColumn :=
    deriveFields_loop_eq desc []
  refine ⟨heq, fun hall => ?_⟩
  rw [heq]
  exact length_filterMap_of_isSome mapColumn desc hall

theorem derivation_total_one_field_per_matched_column_witness :
    deriveFields twoColDesc = twoColDesc.filterMap mapColumn ∧
    (deriveFields twoColDesc).length = twoColDesc.length :=
  ⟨(derivation_total_one_field_per_matched_column twoColDesc).1,
   (derivation_total_one_field_per_matched_column twoColDesc).2 (by decide)⟩

/-- C9: for the unsupported driver types geography (−151) and interval
(−155) the cursor-boundary conversion applies the registered fallback
stringifier `handle_unknown_data_type`, so the value that reaches the
pipeline is opaque text. -/
theorem unsupported_driver_types_stringified (v : PyValue) :
    convertOutput (-151) v = handle_unknown_data_type v ∧
    convertOutput (-155) v = handle_unknown_data_type v ∧
    isOpaqueText (convertOutput (-151) v) = true ∧
    isOpaqueText (convertOutput (-155) v) = true := by
  refine ⟨rfl, rfl, rfl, rfl⟩

/-! ## Claims about the main loop -/

/-- C10: on a source yielding zero rows the first fetch is empty, the loop
breaks at once, the writer is never instantiated (so no output file is ever
created), no segment is closed, and the final report states 0 rows exported
to the output file name computed before the loop. -/
theorem zero_rows_no_writer_no_file {α : Type} (cfg : Config) (wsize : List α → Nat) :
    runPipeline cfg wsize ([] : List α) =
      { rowcount := 0
        segments := []
        writerCreated := false
        finalName := (initState cfg).outputFileName } := by
  unfold runPipeline
  rw [mainLoop_stop cfg wsize [] (initState cfg) (by simp)]
  by_cases hb : cfg.blockSize > 0 <;> simp [initState, finalize, hb]

/-! ### Batch structure of the fetch loop (C5) -/

/-- Every batch the fetch loop yields is non-empty and no larger than the
capacity. -/
theorem fetchBatches_sizes {α : Type} (cap : Nat) :
    ∀ (n : Nat) (rows : List α), rows.length ≤ n →
      ∀ b ∈ fetchBatches cap rows, b ≠ [] ∧ b.length ≤ cap := by
  intro n
  induction n with
  | zero =>
    intro rows hlen b hb
    have hrows : rows = [] := by cases rows <;> simp_all
    rw [hrows, fetchBatches_stop cap [] (by simp)] at hb
    cases hb
  | succ n ih =>
    intro rows hlen b hb
    by_cases h : rows.take cap = []
    · rw [fetchBatches_stop cap rows h] at hb
      cases hb
    · rw [fetchBatches_step cap rows h] at hb
      rcases List.mem_cons.mp hb with hb1 | hb2
      · subst hb1
        exact ⟨h, List.length_take_le cap rows⟩
      · have hcap : cap ≠ 0 := by
          intro hz
          exact h (by simp [hz])
        have hrows : rows ≠ [] := by
          intro hz
          exact h (by simp [hz])
        have hlen' : (rows.drop cap).length ≤ n := by
          simp only [List.length_drop]
          have : 0 < rows.length := List.length_pos.mpr hrows
          omega
        exact ih (rows.drop cap) hlen' b hb2

/-- The batch sizes sum to the total number of source rows. -/
theorem fetchBatches_sum {α : Type} (cap : Nat) (hcap : 0 < cap) :
    ∀ (n : Nat) (rows : List α), rows.length ≤ n →
      ((fetchBatches cap rows).map List.length).sum = rows.length := by
  intro n
  induction n with
  | zero =>
    intro rows hlen
    have hrows : rows = [] := by cases rows <;> simp_all
    rw [hrows, fetchBatches_stop cap [] (by simp)]
    simp
  | succ n ih =>
    intro rows hlen
    by_cases h : rows.take cap = []
    · have hrows : rows = [] := by
        cases rows with
        | nil => rfl
        | cons a as =>
          exfalso
          cases cap with
          | zero => omega
          | succ k => simp [List.take] at h
      rw [hrows, fetchBatches_stop cap [] (by simp)]
      simp [hrows]
    · rw [fetchBatches_step cap rows h]
      simp only [List.map_cons, List.sum_cons]
      have hrows : rows ≠ [] := by
        intro hz
        exact h (by simp [hz])
      have hlen' : (rows.drop cap).length ≤ n := by
        simp only [List.length_drop]
        have : 0 < rows.length := List.length_pos.mpr hrows
        omega
      rw [ih (rows.drop cap) hlen']
      simp only [List.length_take, List.length_drop]
      omega

/-- The number of batches is `ceil(R / C)`. -/
theorem fetchBatches_count {α : Type} (cap : Nat) (hcap : 0 < cap) :
    ∀ (n : Nat) (rows : List α), rows.length ≤ n →
      (fetchBatches cap rows).length = (rows.length + cap - 1) / cap := by
  intro n
  induction n with
  | zero =>
    intro rows hlen
    have hrows : rows = [] := by cases rows <;> simp_all
    rw [hrows, fetchBatches_stop cap [] (by simp)]
    simp [Nat.div_eq_of_lt (by omega : cap - 1 < cap)]
  | succ n ih =>
    intro rows hlen
    by_cases h : rows.take cap = []
    · have hrows : rows = [] := by
        cases rows with
        | nil => rfl
        | cons a as =>
          exfalso
          cases cap with
          | zero => omega
          | succ k => simp [List.take] at h
      rw [hrows, fetchBatches_stop cap [] (by simp)]
      simp only [List.length_nil, Nat.zero_add, List.length_cons]
      exact (Nat.div_eq_of_lt (by omega : cap - 1 < cap)).symm
    · rw [fetchBatches_step cap rows h]
      have hrows : rows ≠ [] := by
        intro hz
        exact h (by simp [hz])
      have hpos : 0 < rows.length := List.length_pos.mpr hrows
      have hlen' : (rows.drop cap).length ≤ n := by
        simp only [List.length_drop]
        omega
      simp only [List.length_cons, ih (rows.drop cap) hlen', List.length_drop]
      have hL : rows.length + cap - 1 = (rows.length - 1) + cap := by omega
      rw [hL, Nat.add_div_right _ hcap]
      have hmain : (rows.length - cap + cap - 1) / cap = (rows.length - 1) / cap := by
        rcases Nat.lt_or_ge rows.length cap with hlt | hge
        · rw [Nat.div_eq_of_lt (by omega : rows.length - cap + cap - 1 < cap),
            Nat.div_eq_of_lt (by omega : rows.length - 1 < cap)]
        · have h2 : rows.length - cap + cap - 1 = rows.length - 1 := by omega
          rw [h2]
      rw [hmain]

/-- Every batch except possibly the last is exactly the capacity. -/
theorem fetchBatches_dropLast_full {α : Type} (cap : Nat) (hcap : 0 < cap) :
    ∀ (n : Nat) (rows : List α), rows.length ≤ n →
      ∀ b ∈ (fetchBatches cap rows).dropLast, b.length = cap := by
  intro n
  induction n with
  | zero =>
    intro rows hlen b hb
    have hrows : rows = [] := by cases rows <;> simp_all
    rw [hrows, fetchBatches_stop cap [] (by simp)] at hb
    cases hb
  | succ n ih =>
    intro rows hlen b hb
    by_cases h : rows.take cap = []
    · rw [fetchBatches_stop cap rows h] at hb
      cases hb
    · rw [fetchBatches_step cap rows h] at hb
      have hrows : rows ≠ [] := by
        intro hz
        exact h (by simp [hz])
      have hlen' : (rows.drop cap).length ≤ n := by
        simp only [List.length_drop]
        have : 0 < rows.length := List.length_pos.mpr hrows
        omega
      cases hrest : fetchBatches cap (rows.drop cap) with
      | nil =>
        rw [hrest] at hb
        cases hb
      | cons r rs =>
        rw [hrest] at hb
        rw [List.dropLast_cons₂] at hb
        rcases List.mem_cons.mp hb with hb1 | hb2
        · subst hb1
          have hdrop : rows.drop cap ≠ [] := by
            intro hz
            rw [fetchBatches_stop cap (rows.drop cap) (by simp [hz])] at hrest
            cases hrest
          have hlong : cap < rows.length := by
            by_contra hle
            exact hdrop (List.drop_eq_nil_of_le (by omega))
          simp only [List.length_take]
          omega
        · rw [← hrest] at hb2
          exact ih (rows.drop cap) hlen' b hb2

/-- Each loop body on a non-empty batch writes exactly one rowgroup. -/
theorem totalRowgroupsState_processBatch {α : Type} (cfg : Config)
    (wsize : List α → Nat) (st : LoopState) (b : List α) :
    totalRowgroupsState (processBatch cfg wsize st b)
      = totalRowgroupsState st + 1 := by
  unfold processBatch totalRowgroupsState openWriter
  cases hw : st.writer with
  | none =>
    simp only [hw]
    split <;> simp
  | some w =>
    simp only [hw]
    split <;> simp <;> omega

/-- Across the whole loop, exactly one rowgroup is written per non-empty
fetched batch; the terminating empty fetch writes nothing. -/
theorem totalRowgroupsState_mainLoop {α : Type} (cfg : Config)
    (wsize : List α → Nat) :
    ∀ (n : Nat) (rows : List α) (st : LoopState), rows.length ≤ n →
      totalRowgroupsState (mainLoop cfg wsize rows st)
        = totalRowgroupsState st + (fetchBatches cfg.rowgroupSize rows).length := by
  intro n
  induction n with
  | zero =>
    intro rows st hlen
    have hrows : rows = [] := by cases rows <;> simp_all
    rw [hrows, mainLoop_stop cfg wsize [] st (by simp),
      fetchBatches_stop cfg.rowgroupSize [] (by simp)]
    rfl
  | succ n ih =>
    intro rows st hlen
    by_cases h : rows.take cfg.rowgroupSize = []
    · rw [mainLoop_stop cfg wsize rows st h, fetchBatches_stop cfg.rowgroupSize rows h]
      rfl
    · rw [mainLoop_step cfg wsize rows st h, fetchBatches_step cfg.rowgroupSize rows h]
      have hrows : rows ≠ [] := by
        intro hz
        exact h (by simp [hz])
      have hcap : cfg.rowgroupSize ≠ 0 := by
        intro hz
        exact h (by simp [hz])
      have hlen' : (rows.drop cfg.rowgroupSize).length ≤ n := by
        simp only [List.length_drop]
        have : 0 < rows.length := List.length_pos.mpr hrows
        omega
      rw [ih (rows.drop cfg.rowgroupSize) _ hlen',
        totalRowgroupsState_processBatch cfg wsize st (rows.take cfg.rowgroupSize)]
      simp only [List.length_cons]
      omega

/-- The rowgroups of the reported segments are the loop's running total. -/
theorem finalize_totalRowgroups (st : LoopState) :
    ((finalize st).segments.map Segment.rowgroups).sum = totalRowgroupsState st := by
  unfold finalize totalRowgroupsState
  cases hw : st.writer <;> simp

/-- C5: with capacity C > 0 on a source of R rows, the fetch loop yields
`ceil(R/C)` non-empty batches of size ≤ C (all but possibly the last of size
exactly C) whose sizes sum to R; the pipeline writes exactly one rowgroup
per such batch and none for the terminating empty fetch. -/
theorem fetch_loop_yields_ceil_batches_then_stops {α : Type} (cfg : Config)
    (wsize : List α → Nat) (rows : List α) (hcap : 0 < cfg.rowgroupSize) :
    (∀ b ∈ fetchBatches cfg.rowgroupSize rows, b ≠ [] ∧ b.length ≤ cfg.rowgroupSize) ∧
    ((fetchBatches cfg.rowgroupSize rows).map List.length).sum = rows.length ∧
    (fetchBatches cfg.rowgroupSize rows).length
      = (rows.length + cfg.rowgroupSize - 1) / cfg.rowgroupSize ∧
    (∀ b ∈ (fetchBatches cfg.rowgroupSize rows).dropLast, b.length = cfg.rowgroupSize) ∧
    ((runPipeline cfg wsize rows).segments.map Segment.rowgroups).sum
      = (fetchBatches cfg.rowgroupSize rows).length := by
  refine ⟨fetchBatches_sizes cfg.rowgroupSize rows.length rows le_rfl,
    fetchBatches_sum cfg.rowgroupSize hcap rows.length rows le_rfl,
    fetchBatches_count cfg.rowgroupSize hcap rows.length rows le_rfl,
    fetchBatches_dropLast_full cfg.rowgroupSize hcap rows.length rows le_rfl, ?_⟩
  unfold runPipeline
  rw [finalize_totalRowgroups,
    totalRowgroupsState_mainLoop cfg wsize rows.length rows (initState cfg) le_rfl]
  have h0 : totalRowgroupsState (initState cfg) = 0 := by
    by_cases hb : cfg.blockSize > 0 <;> simp [initState, totalRowgroupsState, hb]
  omega

theorem fetch_loop_yields_ceil_batches_then_stops_witness :
    0 < cfgC5.rowgroupSize ∧
    ((∀ b ∈ fetchBatches cfgC5.rowgroupSize rowsC5, b ≠ [] ∧ b.length ≤ cfgC5.rowgroupSize) ∧
    ((fetchBatches cfgC5.rowgroupSize rowsC5).map List.length).sum = rowsC5.length ∧
    (fetchBatches cfgC5.rowgroupSize rowsC5).length
      = (rowsC5.length + cfgC5.rowgroupSize - 1) / cfgC5.rowgroupSize ∧
    (∀ b ∈ (fetchBatches cfgC5.rowgroupSize rowsC5).dropLast, b.length = cfgC5.rowgroupSize) ∧
    ((runPipeline cfgC5 wsizeC5 rowsC5).segments.map Segment.rowgroups).sum
      = (fetchBatches cfgC5.rowgroupSize rowsC5).length) :=
  ⟨by decide,
   fetch_loop_yields_ceil_batches_then_stops cfgC5 wsizeC5 rowsC5 (by decide)⟩

/-! ### Rotation sequencing (C6, C7, C8) -/

/-- `List.range'` grows by its upper end. -/
theorem range'_one_concat (n : Nat) :
    List.range' 1 (n + 1) = List.range' 1 n ++ [n + 1] := by
  rw [List.range'_concat]
  simp [Nat.add_comm]

/-- Under the bookkeeping invariant, the writer the loop body uses sits on
the current output file name with the current sequence number. -/
theorem openWriter_fields (st : LoopState)
    (h7 : ∀ w, st.writer = some w → w.seq = st.currentSeq ∧ w.name = st.outputFileName) :
    (openWriter st).seq = st.currentSeq ∧ (openWriter st).name = st.outputFileName := by
  unfold openWriter
  cases hw : st.writer with
  | none => exact ⟨rfl, rfl⟩
  | some w => exact h7 w hw

/-- One loop body preserves the rotation bookkeeping invariant. -/
theorem SeqInv_processBatch {α : Type} (cfg : Config) (wsize : List α → Nat)
    (st : LoopState) (b : List α) (h : SeqInv cfg st) :
    SeqInv cfg (processBatch cfg wsize st b) := by
  obtain ⟨h1, h2, h3, h4, h5, h6, h7⟩ := h
  obtain ⟨hseq, hname⟩ := openWriter_fields st h7
  unfold processBatch
  dsimp only
  split
  · rename_i hrot
    refine ⟨?_, ?_, ?_, ?_, ?_, ?_, ?_⟩
    · simp only [List.map_append, List.map_cons, List.map_nil, List.length_append,
        List.length_cons, List.length_nil]
      rw [h1, hseq, h4, range'_one_concat]
    · intro s hs
      rcases List.mem_append.mp hs with hs1 | hs2
      · exact h2 s hs1
      · rcases List.mem_singleton.mp hs2 with rfl
        simp only [hseq, hname, h5]
    · intro s hs
      rcases List.mem_append.mp hs with hs1 | hs2
      · exact h3 s hs1
      · rcases List.mem_singleton.mp hs2 with rfl
        exact hrot.2
    · simp only [List.length_append, List.length_cons, List.length_nil, h6]
    · rfl
    · simp only [List.length_append, List.length_cons, List.length_nil, h6, h4]
    · intro w hw
      cases hw
      exact ⟨rfl, rfl⟩
  · refine ⟨h1, h2, h3, h4, h5, h6, ?_⟩
    intro w hw
    cases hw
    exact ⟨hseq, hname⟩

/-- The whole loop preserves the rotation bookkeeping invariant. -/
theorem SeqInv_mainLoop {α : Type} (cfg : Config) (wsize : List α → Nat) :
    ∀ (n : Nat) (rows : List α) (st : LoopState), rows.length ≤ n →
      SeqInv cfg st → SeqInv cfg (mainLoop cfg wsize rows st) := by
  intro n
  induction n with
  | zero =>
    intro rows st hlen h
    have hrows : rows = [] := by cases rows <;> simp_all
    rw [hrows, mainLoop_stop cfg wsize [] st (by simp)]
    exact h
  | succ n ih =>
    intro rows st hlen h
    by_cases hstop : rows.take cfg.rowgroupSize = []
    · rw [mainLoop_stop cfg wsize rows st hstop]
      exact h
    · rw [mainLoop_step cfg wsize rows st hstop]
      have hrows : rows ≠ [] := by
        intro hz
        exact hstop (by simp [hz])
      have hcap : cfg.rowgroupSize ≠ 0 := by
        intro hz
        exact hstop (by simp [hz])
      have hlen' : (rows.drop cfg.rowgroupSize).length ≤ n := by
        simp only [List.length_drop]
        have : 0 < rows.length := List.length_pos.mpr hrows
        omega
      exact ih (rows.drop cfg.rowgroupSize) _ hlen'
        (SeqInv_processBatch cfg wsize st _ h)

/-- C6: with rotation active (`blockSize > 0`), every file closed by the
rotation check exceeded `blockSize * 1024 * 1024` bytes, and the files of
the export carry the zero-padded names `segFileName root n` for the
contiguous, strictly increasing, never reused sequence numbers 1, 2, …, k. -/
theorem rotation_sequence_contiguous_from_one {α : Type} (cfg : Config)
    (wsize : List α → Nat) (rows : List α) (hB : 0 < cfg.blockSize) :
    (runPipeline cfg wsize rows).segments.map Segment.seq
      = List.range' 1 (runPipeline cfg wsize rows).segments.length ∧
    (∀ s ∈ (runPipeline cfg wsize rows).segments,
      s.name = segFileName cfg.outputFileRoot s.seq) ∧
    (∀ s ∈ (runPipeline cfg wsize rows).segments.dropLast,
      cfg.blockSize * (1024 * 1024) < s.bytes) := by
  have hinit : SeqInv cfg (initState cfg) := by
    unfold initState SeqInv
    rw [if_pos hB]
    refine ⟨rfl, ?_, ?_, rfl, rfl, rfl, ?_⟩
    · intro s hs; cases hs
    · intro s hs; cases hs
    · intro w hw; cases hw
  have hfin : SeqInv cfg (mainLoop cfg wsize rows (initState cfg)) :=
    SeqInv_mainLoop cfg wsize rows.length rows (initState cfg) le_rfl hinit
  obtain ⟨h1, h2, h3, h4, h5, h6, h7⟩ := hfin
  unfold runPipeline finalize
  cases hw : (mainLoop cfg wsize rows (initState cfg)).writer with
  | none =>
    refine ⟨h1, h2, fun s hs => h3 s (List.mem_of_mem_dropLast hs)⟩
  | some w =>
    obtain ⟨hwseq, hwname⟩ := h7 w hw
    refine ⟨?_, ?_, ?_⟩
    · simp only [List.map_append, List.map_cons, List.map_nil, List.length_append,
        List.length_cons, List.length_nil]
      rw [h1, hwseq, h4, range'_one_concat]
    · intro s hs
      rcases List.mem_append.mp hs with hs1 | hs2
      · exact h2 s hs1
      · rcases List.mem_singleton.mp hs2 with rfl
        rw [hwname, h5, hwseq]
    · intro s hs
      rw [List.dropLast_concat] at hs
      exact h3 s hs

theorem rotation_sequence_contiguous_from_one_witness :
    0 < cfgC6.blockSize ∧
    ((runPipeline cfgC6 wsizeC6 rowsC6).segments.map Segment.seq
       = List.range' 1 (runPipeline cfgC6 wsizeC6 rowsC6).segments.length ∧
     (∀ s ∈ (runPipeline cfgC6 wsizeC6 rowsC6).segments,
       s.name = segFileName cfgC6.outputFileRoot s.seq) ∧
     (∀ s ∈ (runPipeline cfgC6 wsizeC6 rowsC6).segments.dropLast,
       cfgC6.blockSize * (1024 * 1024) < s.bytes)) :=
  ⟨by decide, rotation_sequence_contiguous_from_one cfgC6 wsizeC6 rowsC6 (by decide)⟩

/-- With `blockSize = 0` the rotation check never fires: one loop body
keeps the single output name, closes nothing, and leaves a writer open. -/
theorem NoRotInv_processBatch {α : Type} (cfg : Config) (wsize : List α → Nat)
    (st : LoopState) (b : List α) (h0 : cfg.blockSize = 0) (h : NoRotInv cfg st) :
    NoRotInv cfg (processBatch cfg wsize st b) ∧
      (processBatch cfg wsize st b).writer.isSome := by
  obtain ⟨h1, h2, h3⟩ := h
  have hwname : (openWriter st).name = cfg.outputFileRoot ++ ".parquet" := by
    unfold openWriter
    cases hw : st.writer with
    | none => exact h2
    | some w => exact h3 w hw
  unfold processBatch
  dsimp only
  rw [if_neg (by rw [h0]; rintro ⟨hgt, -⟩; exact absurd hgt (by omega))]
  refine ⟨⟨h1, h2, ?_⟩, rfl⟩
  intro w hw
  cases hw
  exact hwname

/-- With `blockSize = 0` the whole loop keeps the single output name,
closes nothing, and never loses the writer once one exists. -/
theorem NoRotInv_mainLoop {α : Type} (cfg : Config) (wsize : List α → Nat)
    (h0 : cfg.blockSize = 0) :
    ∀ (n : Nat) (rows : List α) (st : LoopState), rows.length ≤ n →
      NoRotInv cfg st →
      NoRotInv cfg (mainLoop cfg wsize rows st) ∧
        (st.writer.isSome → (mainLoop cfg wsize rows st).writer.isSome) := by
  intro n
  induction n with
  | zero =>
    intro rows st hlen h
    have hrows : rows = [] := by cases rows <;> simp_all
    rw [hrows, mainLoop_stop cfg wsize [] st (by simp)]
    exact ⟨h, id⟩
  | succ n ih =>
    intro rows st hlen h
    by_cases hstop : rows.take cfg.rowgroupSize = []
    · rw [mainLoop_stop cfg wsize rows st hstop]
      exact ⟨h, id⟩
    · rw [mainLoop_step cfg wsize rows st hstop]
      have hrows : rows ≠ [] := by
        intro hz
        exact hstop (by simp [hz])
      have hcap : cfg.rowgroupSize ≠ 0 := by
        intro hz
        exact hstop (by simp [hz])
      have hlen' : (rows.drop cfg.rowgroupSize).length ≤ n := by
        simp only [List.length_drop]
        have : 0 < rows.length := List.length_pos.mpr hrows
        omega
      obtain ⟨hpb, hpbsome⟩ :=
        NoRotInv_processBatch cfg wsize st (rows.take cfg.rowgroupSize) h0 h
      obtain ⟨hfin, hfinsome⟩ :=
        ih (rows.drop cfg.rowgroupSize) _ hlen' hpb
      exact ⟨hfin, fun _ => hfinsome hpbsome⟩

/-- C7: an export with `blockSize = 0` and at least one row produces
exactly one output file, named `root + ".parquet"` with no sequence
suffix, however many rows are fetched and bytes written. -/
theorem rotation_disabled_single_output_file {α : Type} (cfg : Config)
    (wsize : List α → Nat) (rows : List α) (h0 : cfg.blockSize = 0)
    (hcap : 0 < cfg.rowgroupSize) (hrows : rows ≠ []) :
    (runPipeline cfg wsize rows).segments.map Segment.name
      = [cfg.outputFileRoot ++ ".parquet"] := by
  have hinit : NoRotInv cfg (initState cfg) := by
    unfold initState NoRotInv
    rw [if_neg (by omega)]
    exact ⟨rfl, rfl, fun w hw => by cases hw⟩
  have htake : rows.take cfg.rowgroupSize ≠ [] := by
    cases rows with
    | nil => exact absurd rfl hrows
    | cons a as =>
      cases hc : cfg.rowgroupSize with
      | zero => omega
      | succ k => simp
  unfold runPipeline
  rw [mainLoop_step cfg wsize rows (initState cfg) htake]
  obtain ⟨hpb, hpbsome⟩ :=
    NoRotInv_processBatch cfg wsize (initState cfg) (rows.take cfg.rowgroupSize) h0 hinit
  obtain ⟨⟨hc1, hc2, hc3⟩, hsome⟩ :=
    NoRotInv_mainLoop cfg wsize h0 (rows.drop cfg.rowgroupSize).length
      (rows.drop cfg.rowgroupSize)
      (processBatch cfg wsize (initState cfg) (rows.take cfg.rowgroupSize)) le_rfl hpb
  have hws := hsome hpbsome
  unfold finalize
  cases hw : (mainLoop cfg wsize (rows.drop cfg.rowgroupSize)
      (processBatch cfg wsize (initState cfg) (rows.take cfg.rowgroupSize))).writer with
  | none => rw [hw] at hws; cases hws
  | some w =>
    simp only [hw, hc1, List.nil_append, List.map_cons, List.map_nil]
    rw [hc3 w hw]

theorem rotation_disabled_single_output_file_witness :
    cfgC7.blockSize = 0 ∧ 0 < cfgC7.rowgroupSize ∧ rowsC7 ≠ [] ∧
    (runPipeline cfgC7 wsizeC7 rowsC7).segments.map Segment.name
      = [cfgC7.outputFileRoot ++ ".parquet"] :=
  ⟨rfl, by decide, by decide,
   rotation_disabled_single_output_file cfgC7 wsizeC7 rowsC7 rfl (by decide) (by decide)⟩

/-- C8 counterexample: in the one-row export `cfgC8`/`rowsC8` the only
rowgroup write exceeds the block size, so the rotation check closes the
first file and eagerly opens a second writer; the next fetch is empty and
the loop's final `writer.close()` closes that second file containing a
schema header but zero rowgroups — the per-file rowgroup counts are
`[1, 0]`. -/
theorem rotation_after_last_write_closes_empty_segment :
    (runPipeline cfgC8 wsizeC8 rowsC8).segments.map Segment.rowgroups = [1, 0] := by
  unfold runPipeline
  rw [mainLoop_step cfgC8 wsizeC8 rowsC8 (initState cfgC8) (by decide)]
  rw [mainLoop_stop cfgC8 wsizeC8 (rowsC8.drop cfgC8.rowgroupSize) _ (by decide)]
  rfl

/-- One loop body never closes a file without a rowgroup: rotation closes
the file it has just written into. -/
theorem closed_nonempty_processBatch {α : Type} (cfg : Config)
    (wsize : List α → Nat) (st : LoopState) (b : List α)
    (h : ∀ s ∈ st.closed, 1 ≤ s.rowgroups) :
    ∀ s ∈ (processBatch cfg wsize st b).closed, 1 ≤ s.rowgroups := by
  intro s hs
  unfold processBatch at hs
  dsimp only at hs
  split at hs
  · rcases List.mem_append.mp hs with hs1 | hs2
    · exact h s hs1
    · rcases List.mem_singleton.mp hs2 with rfl
      simp
  · exact h s hs

/-- Across the whole loop, every file closed by rotation holds at least one
rowgroup. -/
theorem closed_nonempty_mainLoop {α : Type} (cfg : Config) (wsize : List α → Nat) :
    ∀ (n : Nat) (rows : List α) (st : LoopState), rows.length ≤ n →
      (∀ s ∈ st.closed, 1 ≤ s.rowgroups) →
      ∀ s ∈ (mainLoop cfg wsize rows st).closed, 1 ≤ s.rowgroups := by
  intro n
  induction n with
  | zero =>
    intro rows st hlen h
    have hrows : rows = [] := by cases rows <;> simp_all
    rw [hrows, mainLoop_stop cfg wsize [] st (by simp)]
    exact h
  | succ n ih =>
    intro rows st hlen h
    by_cases hstop : rows.take cfg.rowgroupSize = []
    · rw [mainLoop_stop cfg wsize rows st hstop]
      exact h
    · rw [mainLoop_step cfg wsize rows st hstop]
      have hrows : rows ≠ [] := by
        intro hz
        exact hstop (by simp [hz])
      have hcap : cfg.rowgroupSize ≠ 0 := by
        intro hz
        exact hstop (by simp [hz])
      have hlen' : (rows.drop cfg.rowgroupSize).length ≤ n := by
        simp only [List.length_drop]
        have : 0 < rows.length := List.length_pos.mpr hrows
        omega
      exact ih (rows.drop cfg.rowgroupSize) _ hlen'
        (closed_nonempty_processBatch cfg wsize st _ h)

/-- C8 (amended): every output file except possibly the last contains at
least one rowgroup; only the final file — opened eagerly when the last
rowgroup write triggered rotation — can be closed with a schema header and
zero rowgroups. -/
theorem every_file_before_last_has_a_rowgroup {α : Type} (cfg : Config)
    (wsize : List α → Nat) (rows : List α) :
    ∀ s ∈ (runPipeline cfg wsize rows).segments.dropLast, 1 ≤ s.rowgroups := by
  intro s hs
  have hinit : ∀ t ∈ (initState cfg).closed, 1 ≤ t.rowgroups := by
    intro t ht
    by_cases hb : cfg.blockSize > 0 <;> simp [initState, hb] at ht
  have hinv : ∀ t ∈ (mainLoop cfg wsize rows (initState cfg)).closed, 1 ≤ t.rowgroups :=
    closed_nonempty_mainLoop cfg wsize rows.length rows (initState cfg) le_rfl hinit
  unfold runPipeline finalize at hs
  cases hw : (mainLoop cfg wsize rows (initState cfg)).writer with
  | none =>
    rw [hw] at hs
    exact hinv s (List.mem_of_mem_dropLast hs)
  | some w =>
    rw [hw] at hs
    dsimp only at hs
    rw [List.dropLast_concat] at hs
    exact hinv s hs

theorem every_file_before_last_has_a_rowgroup_witness :
    1 ≤ segC8w.rowgroups :=
  every_file_before_last_has_a_rowgroup cfgC8w wsizeC8w rowsC8w segC8w (by
    unfold runPipeline
    rw [mainLoop_step cfgC8w wsizeC8w rowsC8w (initState cfgC8w) (by decide)]
    rw [mainLoop_step cfgC8w wsizeC8w (rowsC8w.drop cfgC8w.rowgroupSize) _ (by decide)]
    rw [mainLoop_stop cfgC8w wsizeC8w
      ((rowsC8w.drop cfgC8w.rowgroupSize).drop cfgC8w.rowgroupSize) _ (by decide)]
    decide)

end Odbc2Parquet
